import Mathlib

/-!
Shallow embedding of the command-correlation and device-state
reconciliation engine of the ota_bv frontend.

The state-bearing code lives in two React components:
* src/frontend/src/pages/OTA.jsx — command history, WebSocket ack handler,
  periodic history refresh, payload builder (onSend);
* src/unnamed/part_001 — the Devices page: device registry, config/health
  event handlers, pending-request trackers with timeout sweep,
  onGetConfig / onHealthCheck dispatchers.  (src/unnamed/part_002 is an
  earlier variant of the same Devices component without the health tracker;
  part_001 is the complete one and is the version embedded here.)

JavaScript conventions used throughout the embedding:
* string-keyed objects become association lists with unique keys
  (getKey / setKey / delKey below mirror property read, property
  assignment, and the delete operator);
* an optional / possibly-empty string field becomes Option String, with
  none standing for the JS-falsy cases (absent, undefined, empty string),
  matching how the code only ever tests such fields with truthiness;
* timestamps become Nat milliseconds (the code never parses timestamp
  strings in the handlers modelled here, it only moves them around and
  the spec compares them by age).
-/

namespace OtaBv

/-- Property read m[k] on a JS object modelled as an association list:
first binding wins (keys are kept unique by setKey / delKey). -/
def getKey {α : Type} : List (String × α) → String → Option α
  | [], _ => none
  | p :: m, k => if p.1 = k then some p.2 else getKey m k

/-- Does the object have key k (truthy entry test on object-valued maps). -/
def hasKey {α : Type} : List (String × α) → String → Bool
  | [], _ => false
  | p :: m, k => p.1 = k || hasKey m k

/-- Property assignment m[k] = v: overwrite in place when the key exists
(JS keeps insertion order), append otherwise. -/
def setKey {α : Type} (m : List (String × α)) (k : String) (v : α) : List (String × α) :=
  if hasKey m k then m.map (fun p => if p.1 = k then (k, v) else p) else m ++ [(k, v)]

/-- The delete operator: remove every binding of key k. -/
def delKey {α : Type} (m : List (String × α)) (k : String) : List (String × α) :=
  m.filter (fun p => ¬ p.1 = k)

/-- The key set of a JS object, in insertion order. -/
def keys {α : Type} (m : List (String × α)) : List String :=
  m.map Prod.fst

/-- An inbound ack WebSocket message, as read by the OTA.jsx ws.onmessage
handler: msg.command_id, msg.sensor_id (tested for truthiness before the
per-device upsert, hence Option), msg.timestamp (Option: the code guards
it with ||), and the rest of the message treated as an opaque payload. -/
structure AckMsg where
  command_id : String
  sensor_id : Option String
  timestamp : Option Nat
  payload : String
deriving Repr, DecidableEq

/-- One entry of a command's per_device map in OTA.jsx.  Entries coming
from the history snapshot may carry a reason; the ack upsert spreads the
old entry and overwrites status and ack. -/
structure PerDeviceStatus where
  status : String
  reason : Option String
  ack : Option AckMsg
deriving Repr, DecidableEq

/-- A command record of the OTA history collection (the fields the
correlation engine reads or writes). -/
structure Command where
  command_id : String
  targets : List String
  status : String
  created_at : Option Nat
  last_update : Option Nat
  ack : Option AckMsg
  acks : List AckMsg
  per_device : List (String × PerDeviceStatus)
deriving Repr, DecidableEq

/-- The per-device upsert value built by the ack handler:
\x7b ...(perDevice[sid] || \x7d), status: "acked", ack: msg \x7d — the spread of the
old entry contributes only the reason field, status and ack are overwritten. -/
def mkPD (old : Option PerDeviceStatus) (msg : AckMsg) : PerDeviceStatus :=
  { status := "acked"
  , reason := match old with | some o => o.reason | none => none
  , ack := some msg }

/-- The body of the ack branch of OTA.jsx ws.onmessage applied to the
matched command (OTA.jsx lines 78–91): append msg to acks, upsert
per_device[msg.sensor_id] when sensor_id is truthy, set ack to the
message and last_update to msg.timestamp || cur.last_update. -/
def updateCmd (msg : AckMsg) (cur : Command) : Command :=
  { cur with
    ack := some msg
  , acks := cur.acks ++ [msg]
  , per_device :=
      match msg.sensor_id with
      | some sid => setKey cur.per_device sid (mkPD (getKey cur.per_device sid) msg)
      | none => cur.per_device
  , last_update :=
      match msg.timestamp with
      | some t => some t
      | none => cur.last_update }

/-- The setCommands updater of the ack branch (OTA.jsx lines 74–94):
findIndex locates the first command with the message's command_id and
replaces it by updateCmd; when none matches the list is returned
unchanged (the event is dropped). -/
def applyAck (msg : AckMsg) : List Command → List Command
  | [] => []
  | c :: rest =>
      if c.command_id = msg.command_id then updateCmd msg c :: rest
      else c :: applyAck msg rest

/-- Folding a stream of ack events into the history state. -/
def applyAcks (s : List Command) (msgs : List AckMsg) : List Command :=
  msgs.foldl (fun st m => applyAck m st) s

/-- The periodic history refresh (OTA.jsx lines 39–53):
setCommands(await getOtaHistory()) — the snapshot replaces the previous
state wholesale; the previous state is not consulted. -/
def refreshCommands (snapshot : List Command) (_prev : List Command) : List Command :=
  snapshot

/-- The started_at field of a pending entry as JavaScript sees it: a
number, absent/undefined, NaN, or a truthy string that Number cannot
parse.  Only the numeric cases matter to the sweep. -/
inductive JSTime where
  | missing
  | num (n : Nat)
  | nanv
  | nonNumStr
deriving Repr, DecidableEq

/-- One entry of pendingConfig / pendingHealth in the Devices page:
sensor_id maps to \x7b command_id, started_at \x7d.  command_id is none while
the dispatch response has not been learned (JS-falsy). -/
structure PendingInfo where
  command_id : Option String
  started_at : JSTime
deriving Repr, DecidableEq

/-- The effective numeric start time used by the timeout sweep:
const started = info?.started_at ? Number(info.started_at) : 0 followed
by the truthiness guard on started.  A missing, zero, NaN or non-numeric
started_at all collapse to 0, which the guard rejects. -/
def startedNum : JSTime → Nat
  | .num n => n
  | .missing => 0
  | .nanv => 0
  | .nonNumStr => 0

/-- One tick of the 1-second timeout sweep (part_001 lines 69–94): delete
every entry whose effective start time is truthy and older than 30000 ms. -/
def sweepPending (now : Nat) (m : List (String × PendingInfo)) : List (String × PendingInfo) :=
  m.filter (fun p =>
    let started := startedNum p.2.started_at
    if started ≠ 0 ∧ 30000 < now - started then false else true)

/-- The setPendingConfig / setPendingHealth clearing updater run on a
config / health event (part_001 lines 132–144 and 169–178): delete the
entry keyed by the event's sensor_id, then, when the event carries a
truthy command_id, delete every remaining entry whose stored command_id
is truthy and equal to it. -/
def clearPending (sensorId : String) (eventCid : Option String)
    (m : List (String × PendingInfo)) : List (String × PendingInfo) :=
  let next := delKey m sensorId
  match eventCid with
  | none => next
  | some cid => next.filter (fun p => ¬ p.2.command_id = some cid)

/-- The optimistic marking in onGetConfig / onHealthCheck (part_001 line
222 / 241), run before the dispatch call returns:
\x7b ...prev, [sid]: \x7b command_id: prev?.[sid]?.command_id, started_at: Date.now() \x7d \x7d. -/
def beginPending (sid : String) (now : Nat) (m : List (String × PendingInfo)) : List (String × PendingInfo) :=
  setKey m sid
    { command_id := (getKey m sid).bind (fun i => i.command_id)
    , started_at := JSTime.num now }

/-- Attaching the correlation id learned from the dispatch response
(part_001 lines 224–229 / 243–248): if (!prev[sid]) return prev — a
no-op when the entry was already cleared — else overwrite command_id. -/
def learnCid (sid : String) (cid : String) (m : List (String × PendingInfo)) : List (String × PendingInfo) :=
  match getKey m sid with
  | none => m
  | some info => setKey m sid { info with command_id := some cid }

/-- The inner payload of a config event (cfgPayload = msg.payload || \x7b\x7d). -/
structure ConfigPayload where
  command_id : Option String
  status : Option String
  time : Option Nat
  config : Option String
  error : Option String
deriving Repr, DecidableEq

/-- An inbound config WebSocket message; the handler guard requires a
truthy msg.sensor_id, so that field is a plain String here. -/
structure ConfigMsg where
  sensor_id : String
  command_id : Option String
  timestamp : Option Nat
  payload : Option ConfigPayload
deriving Repr, DecidableEq

/-- The latest_configuration snapshot a config event installs on the
matching device. -/
structure LatestConfiguration where
  command_id : Option String
  status : String
  received_at : Nat
  device_time : Option Nat
  config : Option String
  error : Option String
deriving Repr, DecidableEq

/-- A device registry record (the fields the engine reads or writes). -/
structure Device where
  sensor_id : Option String
  device_id : Option String
  device_name : Option String
  online : Bool
  latest_configuration : Option LatestConfiguration
deriving Repr, DecidableEq

/-- Canonical device key resolution: d.sensor_id || d.device_id. -/
def keyOf (d : Device) : Option String :=
  match d.sensor_id with
  | some s => some s
  | none => d.device_id

/-- nextLatestConfiguration as built at part_001 lines 110–118; now is
the local clock substituted for a missing event timestamp. -/
def nextLatestConfiguration (msg : ConfigMsg) (now : Nat) : LatestConfiguration :=
  let p := msg.payload.getD
    { command_id := none, status := none, time := none, config := none, error := none }
  { command_id := match msg.command_id with | some c => some c | none => p.command_id
  , status := p.status.getD "unknown"
  , received_at := msg.timestamp.getD now
  , device_time := p.time
  , config := p.config
  , error := p.error }

/-- The setDevices updater of the config branch (part_001 lines 119–125):
overwrite latest_configuration on every device whose canonical key equals
the event's sensor_id. -/
def applyConfigDevices (msg : ConfigMsg) (now : Nat) (devices : List Device) : List Device :=
  devices.map (fun d =>
    if keyOf d = some msg.sensor_id then
      { d with latest_configuration := some (nextLatestConfiguration msg now) }
    else d)

/-- The periodic device registry refresh (part_001 lines 52–66):
setDevices(await getDevices()) — wholesale replacement by the snapshot. -/
def refreshDevices (snapshot : List Device) (_prev : List Device) : List Device :=
  snapshot

/-- The operator-supplied raw override payload of onSend, after JSON
parsing.  command is none when the payload object has no command key;
steps is none when it has no steps key; rawTargets records any
operator-typed targets.device_ids (the dispatcher ignores it). -/
structure RawPayload where
  command : Option String
  steps : Option (List (String × String))
  rawTargets : Option (List String)
deriving Repr, DecidableEq

/-- The request actually submitted by onSend (the fields the claims are
about: command kind, resolved targets, merged step map; step bodies are
kept opaque as strings). -/
structure OtaPayload where
  command : String
  targets : List String
  steps : List (String × String)
deriving Repr, DecidableEq

/-- JS object spread \x7b ...a, ...b \x7d: later keys win. -/
def mergeObj {α : Type} (a b : List (String × α)) : List (String × α) :=
  b.foldl (fun acc kv => setKey acc kv.1 kv.2) a

/-- The payload construction of onSend (OTA.jsx lines 187–201).  With no
override the auto-built payload is used; with an override p the submitted
object is \x7b command: p.command || "ota_update", ...p,
targets: \x7b device_ids: targets \x7d, steps: \x7b ...(p.steps || \x7b\x7d), ...steps \x7d \x7d,
so a command key present in p always wins (the spread overwrites the
defaulted field), targets and steps are written after the spread and
always win over operator-typed ones, and in the step merge the
form-derived steps are spread last. -/
def buildPayload (targets : List String) (formSteps : List (String × String))
    (p : Option RawPayload) : OtaPayload :=
  match p with
  | none => { command := "ota_update", targets := targets, steps := formSteps }
  | some pl =>
    { command := pl.command.getD "ota_update"
    , targets := targets
    , steps := mergeObj (pl.steps.getD []) formSteps }

/-- Boolean order on optional timestamps: none counts as minimal. -/
def luLeB : Option Nat → Option Nat → Bool
  | none, _ => true
  | some _, none => false
  | some u, some v => u ≤ v

/-! Concrete fixtures used by the witnesses and counterexamples below. -/

/-- A history command unrelated to the exercised correlation id. -/
def cmdOther : Command :=
  { command_id := "other", targets := [], status := "sent", created_at := none,
    last_update := none, ack := none, acks := [], per_device := [] }

/-- A freshly fetched command with one target d1 and snapshot timestamp 5. -/
def cmdOne : Command :=
  { command_id := "cmd1", targets := ["d1"], status := "sent", created_at := some 1,
    last_update := some 5, ack := none, acks := [], per_device := [] }

/-- An ack for cmd1 from d1 carrying no timestamp. -/
def ackNoTs : AckMsg :=
  { command_id := "cmd1", sensor_id := some "d1", timestamp := none, payload := "ok" }

/-- An ack for cmd1 from d1 with timestamp 9. -/
def ackTs9 : AckMsg :=
  { command_id := "cmd1", sensor_id := some "d1", timestamp := some 9, payload := "ok" }

/-- An ack for cmd1 from d1 with timestamp 10, newer than cmdOne. -/
def ackTs10 : AckMsg :=
  { command_id := "cmd1", sensor_id := some "d1", timestamp := some 10, payload := "ok" }

/-- A late-arriving ack for cmd1 from d1 with timestamp 3, older than
cmdOne's last_update of 5. -/
def ackTs3 : AckMsg :=
  { command_id := "cmd1", sensor_id := some "d1", timestamp := some 3, payload := "late" }

/-- An ack for cmd1 reporting from d2, which is not among cmdOne's targets. -/
def ackD2 : AckMsg :=
  { command_id := "cmd1", sensor_id := some "d2", timestamp := some 6, payload := "ok" }

/-- An ack for cmd1 reporting from d3, also not among cmdOne's targets. -/
def ackD3 : AckMsg :=
  { command_id := "cmd1", sensor_id := some "d3", timestamp := some 7, payload := "ok" }

/-- An operator override payload declaring its own command kind, a step
map sharing the key model_update with the form, and a typed target list. -/
def rawOverride : RawPayload :=
  { command := some "custom_cmd", steps := some [("model_update", "A")],
    rawTargets := some ["evil"] }

/-- Form-derived steps sharing the key model_update with rawOverride. -/
def formStepsFix : List (String × String) :=
  [("model_update", "B"), ("git_update", "G")]

/-! Helper lemmas about the JS-object operations. -/

theorem hasKey_eq_true_iff {α : Type} (m : List (String × α)) (k : String) :
    hasKey m k = true ↔ ∃ p ∈ m, p.1 = k := by
  induction m with
  | nil => simp [hasKey]
  | cons p m ih => simp [hasKey, ih]

theorem getKey_eq_none_of_forall_ne {α : Type} {m : List (String × α)} {k : String}
    (h : ∀ p ∈ m, p.1 ≠ k) : getKey m k = none := by
  induction m with
  | nil => rfl
  | cons p m ih =>
    have hp : p.1 ≠ k := h p (by simp)
    simp only [getKey, if_neg hp]
    exact ih fun q hq => h q (by simp [hq])

theorem getKey_append {α : Type} (a b : List (String × α)) (k : String) :
    getKey (a ++ b) k =
      match getKey a k with
      | some v => some v
      | none => getKey b k := by
  induction a with
  | nil => simp [getKey]
  | cons p a ih =>
    by_cases hp : p.1 = k
    · simp [getKey, hp]
    · simp [getKey, hp, ih]

theorem getKey_mapSet_self {α : Type} (m : List (String × α)) (k : String) (v : α)
    (h : hasKey m k = true) :
    getKey (m.map (fun p => if p.1 = k then (k, v) else p)) k = some v := by
  induction m with
  | nil => simp [hasKey] at h
  | cons p m ih =>
    by_cases hp : p.1 = k
    · simp [getKey, hp]
    · have hm : hasKey m k = true := by
        simp [hasKey, hp] at h
        exact h
      simp [getKey, hp, ih hm]

theorem getKey_mapSet_ne {α : Type} (m : List (String × α)) (k k' : String) (v : α)
    (h : k' ≠ k) :
    getKey (m.map (fun p => if p.1 = k then (k, v) else p)) k' = getKey m k' := by
  induction m with
  | nil => rfl
  | cons p m ih =>
    by_cases hp : p.1 = k
    · have hk : ¬ k = k' := fun hh => h hh.symm
      have hpk : ¬ p.1 = k' := by rw [hp]; exact hk
      simp [getKey, hp, hk, hpk, ih]
    · by_cases hp' : p.1 = k'
      · simp only [List.map_cons, getKey]
        rw [if_neg hp]
        simp [hp']
      · simp [getKey, hp, hp', ih]

theorem mapSet_eq_self {α : Type} (m : List (String × α)) (k : String) (v : α)
    (h : hasKey m k = false) :
    m.map (fun p => if p.1 = k then (k, v) else p) = m := by
  induction m with
  | nil => rfl
  | cons p m ih =>
    have hp : ¬ p.1 = k := by
      intro hh
      simp [hasKey, hh] at h
    have hm : hasKey m k = false := by
      simp [hasKey, hp] at h
      exact h
    simp [hp, ih hm]

theorem getKey_setKey_self {α : Type} (m : List (String × α)) (k : String) (v : α) :
    getKey (setKey m k v) k = some v := by
  unfold setKey
  by_cases h : hasKey m k = true
  · simp only [h, if_true]
    exact getKey_mapSet_self m k v h
  · simp only [Bool.not_eq_true] at h
    simp only [h, Bool.false_eq_true, if_false]
    have hnone : getKey m k = none := by
      refine getKey_eq_none_of_forall_ne fun p hp => ?_
      intro hpk
      have : hasKey m k = true := (hasKey_eq_true_iff m k).mpr ⟨p, hp, hpk⟩
      simp [h] at this
    simp [getKey_append, hnone, getKey]

theorem getKey_setKey_ne {α : Type} (m : List (String × α)) (k k' : String) (v : α)
    (h : k' ≠ k) : getKey (setKey m k v) k' = getKey m k' := by
  unfold setKey
  by_cases hm : hasKey m k = true
  · simp only [hm, if_true]
    exact getKey_mapSet_ne m k k' v h
  · simp only [Bool.not_eq_true] at hm
    simp only [hm, Bool.false_eq_true, if_false, getKey_append]
    cases hg : getKey m k' with
    | some v' => simp
    | none =>
      have : ¬ k = k' := fun hh => h hh.symm
      simp [getKey, this]

theorem keys_setKey {α : Type} (m : List (String × α)) (k : String) (v : α) :
    keys (setKey m k v) = if hasKey m k then keys m else keys m ++ [k] := by
  unfold setKey
  by_cases hm : hasKey m k = true
  · simp only [hm, if_true, keys, List.map_map]
    refine List.map_congr_left fun p _ => ?_
    by_cases hp : p.1 = k
    · simp [Function.comp, hp]
    · simp [Function.comp, hp]
  · simp only [Bool.not_eq_true] at hm
    simp [hm, keys]

theorem keys_setKey_subset {α : Type} (m : List (String × α)) (k : String) (v : α)
    {T : List String} (hm : keys m ⊆ T) (hk : k ∈ T) : keys (setKey m k v) ⊆ T := by
  rw [keys_setKey]
  by_cases h : hasKey m k = true
  · simpa [h] using hm
  · simp only [Bool.not_eq_true] at h
    simp only [h, Bool.false_eq_true, if_false]
    intro x hx
    rcases List.mem_append.mp hx with hx | hx
    · exact hm hx
    · simp at hx
      simpa [hx] using hk

theorem keys_setKey_nodup {α : Type} (m : List (String × α)) (k : String) (v : α)
    (hm : (keys m).Nodup) : (keys (setKey m k v)).Nodup := by
  rw [keys_setKey]
  by_cases h : hasKey m k = true
  · simpa [h] using hm
  · simp only [Bool.not_eq_true] at h
    simp only [h, Bool.false_eq_true, if_false]
    have hk : k ∉ keys m := by
      intro hmem
      rcases List.mem_map.mp hmem with ⟨p, hp, hpk⟩
      have : hasKey m k = true := (hasKey_eq_true_iff m k).mpr ⟨p, hp, hpk⟩
      simp [h] at this
    simpa [List.nodup_append] using ⟨hm, hk⟩

theorem mergeObj_append {α : Type} (a b c : List (String × α)) :
    mergeObj a (b ++ c) = mergeObj (mergeObj a b) c := by
  simp [mergeObj, List.foldl_append]

theorem getKey_mergeObj_of_not_mem {α : Type} (a b : List (String × α)) (k : String)
    (h : k ∉ keys b) : getKey (mergeObj a b) k = getKey a k := by
  induction b generalizing a with
  | nil => rfl
  | cons q b ih =>
    have hq : k ≠ q.1 := by
      intro hh
      exact h (by simp [keys, hh])
    have hb : k ∉ keys b := fun hh => h (by simp [keys] at hh ⊢; tauto)
    simp only [mergeObj, List.foldl_cons]
    have := ih (setKey a q.1 q.2) hb
    simp only [mergeObj] at this
    rw [this, getKey_setKey_ne _ _ _ _ hq]

theorem getKey_mergeObj_of_mem {α : Type} {a b : List (String × α)} {k : String} {v : α}
    (hnd : (keys b).Nodup) (hmem : (k, v) ∈ b) :
    getKey (mergeObj a b) k = some v := by
  obtain ⟨l₁, l₂, rfl⟩ := List.append_of_mem hmem
  have hkeys : keys (l₁ ++ (k, v) :: l₂) = keys l₁ ++ k :: keys l₂ := by
    simp [keys]
  rw [hkeys] at hnd
  have hk2 : k ∉ keys l₂ := (List.nodup_cons.mp (List.nodup_append.mp hnd).2.1).1
  have hsplit : l₁ ++ (k, v) :: l₂ = (l₁ ++ [(k, v)]) ++ l₂ := by simp
  rw [hsplit, mergeObj_append, getKey_mergeObj_of_not_mem _ _ _ hk2, mergeObj_append]
  show getKey (setKey (mergeObj a l₁) k v) k = some v
  exact getKey_setKey_self _ _ _

/-! Helper lemmas about the pending-request tracker. -/

theorem mem_clearPending {sid : String} {eventCid : Option String}
    {m : List (String × PendingInfo)} {p : String × PendingInfo}
    (h : p ∈ clearPending sid eventCid m) :
    p ∈ m ∧ p.1 ≠ sid ∧ ∀ cid, eventCid = some cid → p.2.command_id ≠ some cid := by
  unfold clearPending at h
  cases eventCid with
  | none =>
    simp only [delKey, List.mem_filter, decide_eq_true_eq] at h
    exact ⟨h.1, h.2, by simp⟩
  | some cid =>
    simp only [delKey, List.mem_filter, decide_eq_true_eq] at h
    refine ⟨h.1.1, h.1.2, ?_⟩
    intro c hc
    cases hc
    exact h.2

theorem getKey_clearPending_self (sid : String) (eventCid : Option String)
    (m : List (String × PendingInfo)) :
    getKey (clearPending sid eventCid m) sid = none :=
  getKey_eq_none_of_forall_ne fun _ hp => (mem_clearPending hp).2.1

theorem mem_sweepPending_iff (now : Nat) (m : List (String × PendingInfo))
    (p : String × PendingInfo) :
    p ∈ sweepPending now m ↔
      p ∈ m ∧ ¬ (startedNum p.2.started_at ≠ 0 ∧ 30000 < now - startedNum p.2.started_at) := by
  unfold sweepPending
  rw [List.mem_filter]
  constructor
  · rintro ⟨hm, hf⟩
    refine ⟨hm, ?_⟩
    intro hcond
    simp only [if_pos hcond] at hf
    exact Bool.false_ne_true hf
  · rintro ⟨hm, hcond⟩
    exact ⟨hm, by simp [if_neg hcond]⟩

/-- Claim C5: a config/health event with device key sid and correlation id
eventCid, over any tracker state m (so for either arrival order relative
to the dispatch response), leaves no pending entry keyed by sid —
regardless of the entry's stored correlation id — and also removes every
remaining entry elsewhere whose stored correlation id equals the event's. -/
theorem c5_config_event_clears_pending (sid : String) (eventCid : Option String)
    (m : List (String × PendingInfo)) :
    (∀ p ∈ clearPending sid eventCid m, p.1 ≠ sid) ∧
    (∀ cid, eventCid = some cid →
      ∀ p ∈ clearPending sid eventCid m, p.2.command_id ≠ some cid) ∧
    getKey (clearPending sid eventCid m) sid = none := by
  refine ⟨fun p hp => (mem_clearPending hp).2.1, ?_, getKey_clearPending_self sid eventCid m⟩
  intro cid hc p hp
  exact (mem_clearPending hp).2.2 cid hc

/-- Witness for C5 at a concrete tracker state holding an entry for the
event's device, an entry elsewhere with the event's correlation id, and
an unrelated entry. -/
theorem c5_config_event_clears_pending_witness :
    (∀ p ∈ clearPending "d1" (some "c9")
        [("d1", ⟨some "c1", JSTime.num 5⟩), ("d2", ⟨some "c9", JSTime.num 6⟩),
         ("d3", ⟨none, JSTime.num 7⟩)], p.1 ≠ "d1") ∧
    (∀ cid, (some "c9" : Option String) = some cid →
      ∀ p ∈ clearPending "d1" (some "c9")
        [("d1", ⟨some "c1", JSTime.num 5⟩), ("d2", ⟨some "c9", JSTime.num 6⟩),
         ("d3", ⟨none, JSTime.num 7⟩)], p.2.command_id ≠ some cid) ∧
    getKey (clearPending "d1" (some "c9")
        [("d1", ⟨some "c1", JSTime.num 5⟩), ("d2", ⟨some "c9", JSTime.num 6⟩),
         ("d3", ⟨none, JSTime.num 7⟩)]) "d1" = none :=
  c5_config_event_clears_pending "d1" (some "c9")
    [("d1", ⟨some "c1", JSTime.num 5⟩), ("d2", ⟨some "c9", JSTime.num 6⟩),
     ("d3", ⟨none, JSTime.num 7⟩)]

/-- Claim C6: attaching a correlation id learned from the dispatch
response is a no-op once the tracked entry is gone: on any tracker state
with no entry for sid, learnCid returns the state unchanged; in
particular, after a config event for sid has cleared the entry, learning
the id re-creates nothing and the busy indicator (entry presence) stays
off. -/
theorem c6_learn_noop_after_clear (sid cid : String) (eventCid : Option String)
    (m t : List (String × PendingInfo)) :
    (getKey t sid = none → learnCid sid cid t = t) ∧
    learnCid sid cid (clearPending sid eventCid m) = clearPending sid eventCid m ∧
    getKey (learnCid sid cid (clearPending sid eventCid m)) sid = none := by
  have hnoop : ∀ u : List (String × PendingInfo), getKey u sid = none →
      learnCid sid cid u = u := by
    intro u hu
    unfold learnCid
    rw [hu]
  have hclear := getKey_clearPending_self sid eventCid m
  refine ⟨hnoop t, hnoop _ hclear, ?_⟩
  rw [hnoop _ hclear]
  exact hclear

/-- Witness for C6: the scenario of the spec — begin a pending entry for
d1, clear it by a config event carrying the correlation id c7, then learn
c7 from the late dispatch response: the entry stays absent. -/
theorem c6_learn_noop_after_clear_witness :
    (getKey (clearPending "d1" (some "c7") (beginPending "d1" 1000 [])) "d1" = none →
      learnCid "d1" "c7" (clearPending "d1" (some "c7") (beginPending "d1" 1000 [])) =
        clearPending "d1" (some "c7") (beginPending "d1" 1000 [])) ∧
    learnCid "d1" "c7" (clearPending "d1" (some "c7") (beginPending "d1" 1000 [])) =
      clearPending "d1" (some "c7") (beginPending "d1" 1000 []) ∧
    getKey (learnCid "d1" "c7"
      (clearPending "d1" (some "c7") (beginPending "d1" 1000 []))) "d1" = none :=
  c6_learn_noop_after_clear "d1" "c7" (some "c7") (beginPending "d1" 1000 [])
    (clearPending "d1" (some "c7") (beginPending "d1" 1000 []))

/-- Claim C7: an entry created with a positive numeric start time t is
removed by the sweep tick at time now exactly when more than 30000 ms
have elapsed: every tick with t + 30000 < now deletes it, and no tick
with now ≤ t + 30000 deletes it. -/
theorem c7_sweep_timeout_bound (now t : Nat) (m : List (String × PendingInfo))
    (p : String × PendingInfo) (hmem : p ∈ m) (ht : p.2.started_at = JSTime.num t)
    (hpos : 0 < t) :
    (t + 30000 < now → p ∉ sweepPending now m) ∧
    (now ≤ t + 30000 → p ∈ sweepPending now m) := by
  have hs : startedNum p.2.started_at = t := by rw [ht]; rfl
  constructor
  · intro hold hmemSweep
    have h := (mem_sweepPending_iff now m p).mp hmemSweep
    rw [hs] at h
    exact h.2 ⟨by omega, by omega⟩
  · intro hyoung
    refine (mem_sweepPending_iff now m p).mpr ⟨hmem, ?_⟩
    rw [hs]
    rintro ⟨-, hgt⟩
    omega

/-- Witness for C7: a tick 30001 ms after creation removes the entry. -/
theorem c7_sweep_timeout_bound_witness :
    ((10 : Nat) + 30000 < 40011 →
      ("d1", (⟨none, JSTime.num 10⟩ : PendingInfo)) ∉
        sweepPending 40011 [("d1", ⟨none, JSTime.num 10⟩)]) ∧
    ((40011 : Nat) ≤ 10 + 30000 →
      ("d1", (⟨none, JSTime.num 10⟩ : PendingInfo)) ∈
        sweepPending 40011 [("d1", ⟨none, JSTime.num 10⟩)]) :=
  c7_sweep_timeout_bound 40011 10 [("d1", ⟨none, JSTime.num 10⟩)]
    ("d1", ⟨none, JSTime.num 10⟩) (by simp) rfl (by decide)

/-- Claim C10: an entry whose started_at is absent, zero, NaN, or a
non-numeric string is never removed by the sweep — neither by a single
tick nor by any sequence of ticks — so it persists until a config/health
event clears it. -/
theorem c10_sweep_keeps_untimed_entries (m : List (String × PendingInfo))
    (p : String × PendingInfo)
    (h0 : p.2.started_at = JSTime.missing ∨ p.2.started_at = JSTime.num 0 ∨
      p.2.started_at = JSTime.nanv ∨ p.2.started_at = JSTime.nonNumStr) :
    (∀ now, p ∈ m → p ∈ sweepPending now m) ∧
    (∀ ticks : List Nat, p ∈ m → p ∈ ticks.foldl (fun st n => sweepPending n st) m) := by
  have hz : startedNum p.2.started_at = 0 := by
    rcases h0 with h | h | h | h <;> rw [h] <;> rfl
  have hone : ∀ (now : Nat) (u : List (String × PendingInfo)), p ∈ u → p ∈ sweepPending now u := by
    intro now u hu
    refine (mem_sweepPending_iff now u p).mpr ⟨hu, ?_⟩
    rintro ⟨hne, -⟩
    exact hne hz
  refine ⟨fun now => hone now m, ?_⟩
  intro ticks
  induction ticks generalizing m with
  | nil => intro h; exact h
  | cons n ticks ih =>
    intro hm
    exact ih (sweepPending n m) (hone n m hm)

/-- Witness for C10: an entry with NaN started_at survives three sweep
ticks far beyond the 30-second timeout. -/
theorem c10_sweep_keeps_untimed_entries_witness :
    (∀ now, ("d1", (⟨some "c1", JSTime.nanv⟩ : PendingInfo)) ∈
        [("d1", ⟨some "c1", JSTime.nanv⟩)] →
      ("d1", (⟨some "c1", JSTime.nanv⟩ : PendingInfo)) ∈
        sweepPending now [("d1", ⟨some "c1", JSTime.nanv⟩)]) ∧
    (∀ ticks : List Nat, ("d1", (⟨some "c1", JSTime.nanv⟩ : PendingInfo)) ∈
        [("d1", ⟨some "c1", JSTime.nanv⟩)] →
      ("d1", (⟨some "c1", JSTime.nanv⟩ : PendingInfo)) ∈
        ticks.foldl (fun st n => sweepPending n st) [("d1", ⟨some "c1", JSTime.nanv⟩)]) :=
  c10_sweep_keeps_untimed_entries [("d1", ⟨some "c1", JSTime.nanv⟩)]
    ("d1", ⟨some "c1", JSTime.nanv⟩) (Or.inr (Or.inr (Or.inl rfl)))

/-! Helper lemmas about the ack handler. -/

theorem applyAck_of_no_match (msg : AckMsg) (s : List Command)
    (h : ∀ c ∈ s, c.command_id ≠ msg.command_id) : applyAck msg s = s := by
  induction s with
  | nil => rfl
  | cons c rest ih =>
    have hc : c.command_id ≠ msg.command_id := h c (by simp)
    simp only [applyAck, if_neg hc]
    rw [ih fun q hq => h q (by simp [hq])]

theorem applyAck_append_match (msg : AckMsg) (pre post : List Command) (c : Command)
    (hpre : ∀ cp ∈ pre, cp.command_id ≠ msg.command_id)
    (hc : c.command_id = msg.command_id) :
    applyAck msg (pre ++ c :: post) = pre ++ updateCmd msg c :: post := by
  induction pre with
  | nil => simp [applyAck, hc]
  | cons q pre ih =>
    have hq : q.command_id ≠ msg.command_id := hpre q (by simp)
    simp only [List.cons_append, applyAck, if_neg hq, List.append_eq]
    rw [ih fun r hr => hpre r (by simp [hr])]

theorem updateCmd_command_id (msg : AckMsg) (c : Command) :
    (updateCmd msg c).command_id = c.command_id := rfl

theorem updateCmd_targets (msg : AckMsg) (c : Command) :
    (updateCmd msg c).targets = c.targets := rfl

theorem hasKey_mapSet {α : Type} (m : List (String × α)) (k k' : String) (v : α) :
    hasKey (m.map (fun p => if p.1 = k then (k, v) else p)) k' = hasKey m k' := by
  induction m with
  | nil => rfl
  | cons p m ih =>
    by_cases hp : p.1 = k
    · simp [hasKey, hp, ih]
    · simp [hasKey, hp, ih]

theorem hasKey_append {α : Type} (a b : List (String × α)) (k : String) :
    hasKey (a ++ b) k = (hasKey a k || hasKey b k) := by
  induction a with
  | nil => simp [hasKey]
  | cons p a ih => simp [hasKey, ih, Bool.or_assoc]

theorem mapSet_idem {α : Type} (m : List (String × α)) (k : String) (v : α) :
    (m.map (fun p => if p.1 = k then (k, v) else p)).map
        (fun p => if p.1 = k then (k, v) else p) =
      m.map (fun p => if p.1 = k then (k, v) else p) := by
  rw [List.map_map]
  refine List.map_congr_left fun p _ => ?_
  by_cases hp : p.1 = k <;> simp [Function.comp, hp]

theorem setKey_setKey_same {α : Type} (m : List (String × α)) (k : String) (v : α) :
    setKey (setKey m k v) k v = setKey m k v := by
  by_cases h : hasKey m k = true
  · unfold setKey
    rw [if_pos h, if_pos (by rw [hasKey_mapSet]; exact h)]
    exact mapSet_idem m k v
  · have h' : hasKey m k = false := by simpa using h
    have h1 : setKey m k v = m ++ [(k, v)] := by
      unfold setKey
      rw [if_neg (by simp [h'])]
    have h2 : hasKey (m ++ [(k, v)]) k = true := by
      rw [hasKey_append]
      simp [hasKey]
    rw [h1]
    unfold setKey
    rw [if_pos h2, List.map_append, mapSet_eq_self m k v h']
    simp

theorem updateCmd_updateCmd (msg : AckMsg) (c : Command) :
    (updateCmd msg (updateCmd msg c)).per_device = (updateCmd msg c).per_device ∧
    (updateCmd msg (updateCmd msg c)).last_update = (updateCmd msg c).last_update ∧
    (updateCmd msg (updateCmd msg c)).ack = (updateCmd msg c).ack ∧
    (updateCmd msg (updateCmd msg c)).status = (updateCmd msg c).status ∧
    (updateCmd msg (updateCmd msg c)).acks = (updateCmd msg c).acks ++ [msg] := by
  refine ⟨?_, ?_, rfl, rfl, rfl⟩
  · cases hsid : msg.sensor_id with
    | none =>
      simp only [updateCmd, hsid]
    | some sid =>
      have hpd : (updateCmd msg c).per_device =
          setKey c.per_device sid (mkPD (getKey c.per_device sid) msg) := by
        simp only [updateCmd, hsid]
      simp only [updateCmd, hsid, hpd]
      rw [getKey_setKey_self]
      rw [show mkPD (some (mkPD (getKey c.per_device sid) msg)) msg =
            mkPD (getKey c.per_device sid) msg from rfl]
      exact setKey_setKey_same _ _ _
  · cases hts : msg.timestamp with
    | none => simp only [updateCmd, hts]
    | some t => simp only [updateCmd, hts]

/-- Claim C4 counterexample: an ack without a timestamp leaves last_update
at its previous value rather than setting it to the local clock.  With the
local clock reading 7 at processing time, the claim demands last_update =
some 7, but the handler computes msg.timestamp || cur.last_update = the
old value some 5. -/
theorem c4_counterexample :
    ackNoTs.timestamp = none ∧
    (updateCmd ackNoTs cmdOne).last_update = some 5 ∧
    (some 5 : Option Nat) ≠ some 7 :=
  ⟨rfl, rfl, by decide⟩

/-- Claim C4 as amended: an ack whose correlation id matches no command
leaves the state unchanged; otherwise the first matching command gets the
event appended to its acks log, its per-device entry for the event's
device key overwritten (never duplicated, other keys untouched) to status
acked with the raw message attached, and last_update set to the event
timestamp when present and LEFT UNCHANGED (not set to the local clock)
when absent. -/
theorem c4_ack_event_handling (msg : AckMsg) (s pre post : List Command) (c : Command)
    (hpre : ∀ cp ∈ pre, cp.command_id ≠ msg.command_id)
    (hc : c.command_id = msg.command_id) :
    ((∀ cp ∈ s, cp.command_id ≠ msg.command_id) → applyAck msg s = s) ∧
    applyAck msg (pre ++ c :: post) = pre ++ updateCmd msg c :: post ∧
    (updateCmd msg c).acks = c.acks ++ [msg] ∧
    (∀ sid, msg.sensor_id = some sid →
      getKey (updateCmd msg c).per_device sid = some (mkPD (getKey c.per_device sid) msg) ∧
      (mkPD (getKey c.per_device sid) msg).status = "acked" ∧
      (mkPD (getKey c.per_device sid) msg).ack = some msg ∧
      ((keys c.per_device).Nodup → (keys (updateCmd msg c).per_device).Nodup) ∧
      (∀ k, k ≠ sid → getKey (updateCmd msg c).per_device k = getKey c.per_device k)) ∧
    (msg.sensor_id = none → (updateCmd msg c).per_device = c.per_device) ∧
    (updateCmd msg c).last_update =
      (match msg.timestamp with | some t => some t | none => c.last_update) := by
  refine ⟨applyAck_of_no_match msg s, applyAck_append_match msg pre post c hpre hc, rfl, ?_, ?_, rfl⟩
  · intro sid hsid
    have hpd : (updateCmd msg c).per_device =
        setKey c.per_device sid (mkPD (getKey c.per_device sid) msg) := by
      unfold updateCmd
      rw [hsid]
    refine ⟨?_, rfl, rfl, ?_, ?_⟩
    · rw [hpd]
      exact getKey_setKey_self _ _ _
    · intro hnd
      rw [hpd]
      exact keys_setKey_nodup _ _ _ hnd
    · intro k hk
      rw [hpd]
      exact getKey_setKey_ne _ _ _ _ hk
  · intro hsid
    unfold updateCmd
    rw [hsid]

/-- Witness for C4: one non-matching command before the matched one; ack
for device d1 with timestamp 9. -/
theorem c4_ack_event_handling_witness :
    ((∀ cp ∈ [cmdOther], cp.command_id ≠ ackTs9.command_id) →
      applyAck ackTs9 [cmdOther] = [cmdOther]) ∧
    applyAck ackTs9 ([cmdOther] ++ cmdOne :: []) =
      [cmdOther] ++ updateCmd ackTs9 cmdOne :: [] ∧
    (updateCmd ackTs9 cmdOne).acks = cmdOne.acks ++ [ackTs9] ∧
    (∀ sid, ackTs9.sensor_id = some sid →
      getKey (updateCmd ackTs9 cmdOne).per_device sid =
        some (mkPD (getKey cmdOne.per_device sid) ackTs9) ∧
      (mkPD (getKey cmdOne.per_device sid) ackTs9).status = "acked" ∧
      (mkPD (getKey cmdOne.per_device sid) ackTs9).ack = some ackTs9 ∧
      ((keys cmdOne.per_device).Nodup → (keys (updateCmd ackTs9 cmdOne).per_device).Nodup) ∧
      (∀ k, k ≠ sid →
        getKey (updateCmd ackTs9 cmdOne).per_device k = getKey cmdOne.per_device k)) ∧
    (ackTs9.sensor_id = none → (updateCmd ackTs9 cmdOne).per_device = cmdOne.per_device) ∧
    (updateCmd ackTs9 cmdOne).last_update =
      (match ackTs9.timestamp with | some t => some t | none => cmdOne.last_update) :=
  c4_ack_event_handling ackTs9 [cmdOther] [cmdOther] [] cmdOne (by decide) rfl

/-- Claim C2 counterexample: applying the identical ack twice is not the
same as applying it once — the second application appends a duplicate
entry to the matched command's acks log (acks.push(msg) is unconditional). -/
theorem c2_counterexample :
    applyAck ackTs9 (applyAck ackTs9 [cmdOne]) ≠ applyAck ackTs9 [cmdOne] ∧
    (applyAck ackTs9 (applyAck ackTs9 [cmdOne])).map Command.acks = [[ackTs9, ackTs9]] ∧
    (applyAck ackTs9 [cmdOne]).map Command.acks = [[ackTs9]] :=
  ⟨by decide, rfl, rfl⟩

/-- Claim C2 as amended: re-applying an identical ack leaves every
observable of every command unchanged EXCEPT the acknowledgment log —
per-device status map, latest ack, last_update, status, targets and
correlation id all agree with the single application (last-write-wins) —
and full idempotence holds exactly when the event matches no command in
the state (the drop case); whenever some command matches, the second
application appends a duplicate to its acks log, so the states differ. -/
theorem c2_idempotent_except_acks_log (msg : AckMsg) (s : List Command) :
    ((applyAck msg (applyAck msg s)).map
        (fun c => (c.command_id, c.targets, c.status, c.per_device, c.ack, c.last_update)) =
      (applyAck msg s).map
        (fun c => (c.command_id, c.targets, c.status, c.per_device, c.ack, c.last_update))) ∧
    (applyAck msg (applyAck msg s) = applyAck msg s ↔
      ∀ c ∈ s, c.command_id ≠ msg.command_id) := by
  induction s with
  | nil => exact ⟨rfl, by simp [applyAck]⟩
  | cons c rest ih =>
    by_cases hc : c.command_id = msg.command_id
    · have h1 : applyAck msg (c :: rest) = updateCmd msg c :: rest := by
        simp only [applyAck, if_pos hc]
      have hcc : (updateCmd msg c).command_id = msg.command_id := by
        rw [updateCmd_command_id]; exact hc
      have h2 : applyAck msg (updateCmd msg c :: rest) =
          updateCmd msg (updateCmd msg c) :: rest := by
        simp only [applyAck, if_pos hcc]
      obtain ⟨hpd, hlu, hak, hst, hacks⟩ := updateCmd_updateCmd msg c
      constructor
      · rw [h1, h2]
        simp only [List.map_cons, List.cons.injEq]
        exact ⟨by rw [updateCmd_command_id, updateCmd_command_id, updateCmd_targets,
          updateCmd_targets, hst, hpd, hak, hlu], trivial⟩
      · rw [h1, h2]
        constructor
        · intro heq
          have hhead : updateCmd msg (updateCmd msg c) = updateCmd msg c :=
            (List.cons.injEq _ _ _ _).mp heq |>.1
          have : (updateCmd msg (updateCmd msg c)).acks = (updateCmd msg c).acks :=
            congrArg Command.acks hhead
          rw [hacks] at this
          have hlen := congrArg List.length this
          simp at hlen
        · intro hall
          exact absurd hc (hall c (by simp))
    · have h1 : applyAck msg (c :: rest) = c :: applyAck msg rest := by
        simp only [applyAck, if_neg hc]
      have h2 : applyAck msg (c :: applyAck msg rest) =
          c :: applyAck msg (applyAck msg rest) := by
        simp only [applyAck, if_neg hc]
      refine ⟨?_, ?_⟩
      · rw [h1, h2]
        simp only [List.map_cons, List.cons.injEq]
        exact ⟨trivial, ih.1⟩
      · rw [h1, h2]
        simp only [List.cons.injEq, true_and, List.mem_cons]
        rw [ih.2]
        constructor
        · intro hall q hq
          rcases hq with hq | hq
          · rw [hq]; exact hc
          · exact hall q hq
        · intro hall q hq
          exact hall q (Or.inr hq)

/-- Witness for C2 at a concrete one-command state matched by the ack. -/
theorem c2_idempotent_except_acks_log_witness :
    ((applyAck ackTs9 (applyAck ackTs9 [cmdOne])).map
        (fun c => (c.command_id, c.targets, c.status, c.per_device, c.ack, c.last_update)) =
      (applyAck ackTs9 [cmdOne]).map
        (fun c => (c.command_id, c.targets, c.status, c.per_device, c.ack, c.last_update))) ∧
    (applyAck ackTs9 (applyAck ackTs9 [cmdOne]) = applyAck ackTs9 [cmdOne] ↔
      ∀ c ∈ [cmdOne], c.command_id ≠ ackTs9.command_id) :=
  c2_idempotent_except_acks_log ackTs9 [cmdOne]

/-! Helper lemmas for the per-device subset invariant. -/

theorem applyAck_mem_id_targets (msg : AckMsg) (s : List Command) :
    ∀ cq ∈ applyAck msg s, ∃ c ∈ s, cq.command_id = c.command_id ∧ cq.targets = c.targets := by
  induction s with
  | nil =>
    intro cq h
    simp [applyAck] at h
  | cons c rest ih =>
    intro cq h
    by_cases hc : c.command_id = msg.command_id
    · rw [show applyAck msg (c :: rest) = updateCmd msg c :: rest from by
        simp [applyAck, hc]] at h
      rcases List.mem_cons.mp h with h | h
      · exact ⟨c, by simp, by rw [h, updateCmd_command_id], by rw [h, updateCmd_targets]⟩
      · exact ⟨cq, by simp [h], rfl, rfl⟩
    · rw [show applyAck msg (c :: rest) = c :: applyAck msg rest from by
        simp [applyAck, hc]] at h
      rcases List.mem_cons.mp h with h | h
      · exact ⟨c, by simp, by rw [h], by rw [h]⟩
      · obtain ⟨cz, hcz, h1, h2⟩ := ih cq h
        exact ⟨cz, by simp [hcz], h1, h2⟩

theorem updateCmd_per_device_keys (msg : AckMsg) (c : Command)
    (hsub : keys c.per_device ⊆ c.targets) (hnd : (keys c.per_device).Nodup)
    (hsid : ∀ sid, msg.sensor_id = some sid → sid ∈ c.targets) :
    keys (updateCmd msg c).per_device ⊆ c.targets ∧
      (keys (updateCmd msg c).per_device).Nodup := by
  cases h : msg.sensor_id with
  | none =>
    have hpd : (updateCmd msg c).per_device = c.per_device := by
      simp only [updateCmd, h]
    rw [hpd]
    exact ⟨hsub, hnd⟩
  | some sid =>
    have hpd : (updateCmd msg c).per_device =
        setKey c.per_device sid (mkPD (getKey c.per_device sid) msg) := by
      simp only [updateCmd, h]
    rw [hpd]
    exact ⟨keys_setKey_subset _ _ _ hsub (hsid sid h), keys_setKey_nodup _ _ _ hnd⟩

theorem applyAck_keys_inv (msg : AckMsg) (s : List Command)
    (hinv : ∀ c ∈ s, keys c.per_device ⊆ c.targets ∧ (keys c.per_device).Nodup)
    (hsid : ∀ c ∈ s, c.command_id = msg.command_id →
      ∀ sid, msg.sensor_id = some sid → sid ∈ c.targets) :
    ∀ c ∈ applyAck msg s, keys c.per_device ⊆ c.targets ∧ (keys c.per_device).Nodup := by
  induction s with
  | nil =>
    intro c h
    simp [applyAck] at h
  | cons c rest ih =>
    intro cq h
    by_cases hc : c.command_id = msg.command_id
    · rw [show applyAck msg (c :: rest) = updateCmd msg c :: rest from by
        simp [applyAck, hc]] at h
      rcases List.mem_cons.mp h with h | h
      · subst h
        have hstep := updateCmd_per_device_keys msg c (hinv c (by simp)).1
          (hinv c (by simp)).2 (hsid c (by simp) hc)
        exact ⟨by rw [updateCmd_targets]; exact hstep.1, hstep.2⟩
      · exact hinv cq (by simp [h])
    · rw [show applyAck msg (c :: rest) = c :: applyAck msg rest from by
        simp [applyAck, hc]] at h
      rcases List.mem_cons.mp h with h | h
      · exact hinv cq (by simp [h])
      · exact ih (fun q hq => hinv q (by simp [hq]))
          (fun q hq => hsid q (by simp [hq])) cq h

/-- Claim C3 counterexample: cmdOne declares the single target d1, yet two
acks reporting from d2 and d3 (whose correlation id matches) populate the
per-device map with keys outside the target set and make it larger than
the target set — the handler performs no membership check on sensor_id. -/
theorem c3_counterexample :
    (applyAcks [cmdOne] [ackD2, ackD3]).map (fun c => keys c.per_device) = [["d2", "d3"]] ∧
    (applyAcks [cmdOne] [ackD2, ackD3]).map Command.targets = [["d1"]] ∧
    ("d2" : String) ∉ (["d1"] : List String) ∧
    (applyAcks [cmdOne] [ackD2, ackD3]).map (fun c => (keys c.per_device).length) = [2] ∧
    (applyAcks [cmdOne] [ackD2, ackD3]).map (fun c => c.targets.length) = [1] ∧
    (1 : Nat) < 2 :=
  ⟨rfl, rfl, by decide, rfl, rfl, by decide⟩

/-- Claim C3 as amended: PROVIDED every applied ack whose correlation id
matches a command reports from a device among that command's declared
targets (the code itself never checks this), and the invariant holds
initially, then after any sequence of ack events every command's
per-device key set remains a duplicate-free subset of its target set and
so never exceeds it in size. -/
theorem c3_per_device_subset_of_targeted_acks (s : List Command) (msgs : List AckMsg)
    (hinv : ∀ c ∈ s, keys c.per_device ⊆ c.targets ∧ (keys c.per_device).Nodup)
    (htgt : ∀ m ∈ msgs, ∀ c ∈ s, c.command_id = m.command_id →
      ∀ sid, m.sensor_id = some sid → sid ∈ c.targets) :
    ∀ c ∈ applyAcks s msgs,
      keys c.per_device ⊆ c.targets ∧ (keys c.per_device).Nodup ∧
      (keys c.per_device).length ≤ c.targets.length := by
  have main : ∀ (ms : List AckMsg) (st : List Command),
      (∀ c ∈ st, keys c.per_device ⊆ c.targets ∧ (keys c.per_device).Nodup) →
      (∀ m ∈ ms, ∀ c ∈ st, c.command_id = m.command_id →
        ∀ sid, m.sensor_id = some sid → sid ∈ c.targets) →
      ∀ c ∈ applyAcks st ms, keys c.per_device ⊆ c.targets ∧ (keys c.per_device).Nodup := by
    intro ms
    induction ms with
    | nil =>
      intro st hi _ c h
      exact hi c h
    | cons m ms ih =>
      intro st hi ht c h
      have happ : applyAcks st (m :: ms) = applyAcks (applyAck m st) ms := rfl
      rw [happ] at h
      refine ih (applyAck m st) ?_ ?_ c h
      · exact applyAck_keys_inv m st hi fun q hq hqid => ht m (by simp) q hq hqid
      · intro mq hmq cq hcq hid sid hsid
        obtain ⟨cz, hcz, h1, h2⟩ := applyAck_mem_id_targets m st cq hcq
        rw [h2]
        exact ht mq (by simp [hmq]) cz hcz (by rw [← h1]; exact hid) sid hsid
  intro c h
  obtain ⟨hsub, hnd⟩ := main msgs s hinv htgt c h
  exact ⟨hsub, hnd, (hnd.subperm hsub).length_le⟩

/-- Witness for C3: the single-target command receives an ack from its
own target d1; the updated command's per-device keys stay within the
target set. -/
theorem c3_per_device_subset_of_targeted_acks_witness :
    keys (updateCmd ackTs9 cmdOne).per_device ⊆ (updateCmd ackTs9 cmdOne).targets ∧
    (keys (updateCmd ackTs9 cmdOne).per_device).Nodup ∧
    (keys (updateCmd ackTs9 cmdOne).per_device).length ≤
      (updateCmd ackTs9 cmdOne).targets.length :=
  c3_per_device_subset_of_targeted_acks [cmdOne] [ackTs9]
    (by
      intro c hc
      simp only [List.mem_singleton] at hc
      subst hc
      simp [cmdOne, keys])
    (by
      intro m hm c hc hid sid hsid
      simp only [List.mem_singleton] at hm hc
      subst hm
      subst hc
      simp only [ackTs9, Option.some.injEq] at hsid
      subst hsid
      simp [cmdOne])
    (updateCmd ackTs9 cmdOne) (by decide)

/-- Claim C8 counterexample: cmdOne holds last_update 5; a late ack with
timestamp 3 moves last_update backwards to 3 — the handler assigns
msg.timestamp unconditionally, with no order check. -/
theorem c8_counterexample :
    cmdOne.last_update = some 5 ∧
    ackTs3.timestamp = some 3 ∧
    (updateCmd ackTs3 cmdOne).last_update = some 3 ∧
    luLeB cmdOne.last_update (updateCmd ackTs3 cmdOne).last_update = false :=
  ⟨rfl, rfl, rfl, rfl⟩

/-- Claim C8 as amended: last_update is set to the event's timestamp
whenever one is present (regardless of order) and left unchanged when
absent; it is non-decreasing only under the proviso that each applied
event's timestamp is at least the command's current last_update. -/
theorem c8_last_update_conditional_monotone (msg : AckMsg) (c : Command)
    (h : ∀ t, msg.timestamp = some t → ∀ u, c.last_update = some u → u ≤ t) :
    luLeB c.last_update (updateCmd msg c).last_update = true ∧
    (updateCmd msg c).last_update =
      (match msg.timestamp with | some t => some t | none => c.last_update) := by
  refine ⟨?_, rfl⟩
  have hlu : (updateCmd msg c).last_update =
      (match msg.timestamp with | some t => some t | none => c.last_update) := rfl
  rw [hlu]
  cases hts : msg.timestamp with
  | none =>
    cases c.last_update with
    | none => rfl
    | some u => simp [luLeB]
  | some t =>
    cases hcu : c.last_update with
    | none => rfl
    | some u =>
      simp only [luLeB]
      simpa using h t hts u hcu

/-- Witness for C8: an ack with timestamp 9 against last_update 5. -/
theorem c8_last_update_conditional_monotone_witness :
    luLeB cmdOne.last_update (updateCmd ackTs9 cmdOne).last_update = true ∧
    (updateCmd ackTs9 cmdOne).last_update =
      (match ackTs9.timestamp with | some t => some t | none => cmdOne.last_update) :=
  c8_last_update_conditional_monotone ackTs9 cmdOne
    (by
      intro t ht u hu
      simp only [ackTs9, Option.some.injEq] at ht
      simp only [cmdOne, Option.some.injEq] at hu
      omega)

/-- Claim C9 counterexample: the override payload declares step
model_update = A, the form derives model_update = B; the submitted merge
\x7b ...(payload.steps || \x7b\x7d), ...steps \x7d gives the FORM step precedence,
contradicting the claimed payload-over-form precedence. -/
theorem c9_counterexample :
    getKey (rawOverride.steps.getD []) "model_update" = some "A" ∧
    getKey formStepsFix "model_update" = some "B" ∧
    getKey (buildPayload ["d1"] formStepsFix (some rawOverride)).steps "model_update" =
      some "B" ∧
    (some "B" : Option String) ≠ some "A" :=
  ⟨rfl, rfl, rfl, by decide⟩

/-- Claim C9 as amended: with a raw override the submitted request uses
the payload's declared command kind (defaulting to ota_update when the
key is absent) and exactly the resolved target list (operator-typed
target lists are ignored); in the merged step map the FORM-derived steps
take precedence on shared keys, and the payload's steps survive only on
keys the form does not derive. -/
theorem c9_dispatch_override_merge (targets : List String)
    (formSteps : List (String × String)) (p : RawPayload)
    (hnd : (keys formSteps).Nodup) :
    (buildPayload targets formSteps (some p)).command = p.command.getD "ota_update" ∧
    (buildPayload targets formSteps (some p)).targets = targets ∧
    (∀ k v, (k, v) ∈ formSteps →
      getKey (buildPayload targets formSteps (some p)).steps k = some v) ∧
    (∀ k, k ∉ keys formSteps →
      getKey (buildPayload targets formSteps (some p)).steps k =
        getKey (p.steps.getD []) k) := by
  refine ⟨rfl, rfl, ?_, ?_⟩
  · intro k v hmem
    show getKey (mergeObj (p.steps.getD []) formSteps) k = some v
    exact getKey_mergeObj_of_mem hnd hmem
  · intro k hk
    show getKey (mergeObj (p.steps.getD []) formSteps) k = getKey (p.steps.getD []) k
    exact getKey_mergeObj_of_not_mem _ _ _ hk

/-- Witness for C9 at the concrete override fixture. -/
theorem c9_dispatch_override_merge_witness :
    (buildPayload ["d1"] formStepsFix (some rawOverride)).command =
      rawOverride.command.getD "ota_update" ∧
    (buildPayload ["d1"] formStepsFix (some rawOverride)).targets = ["d1"] ∧
    (∀ k v, (k, v) ∈ formStepsFix →
      getKey (buildPayload ["d1"] formStepsFix (some rawOverride)).steps k = some v) ∧
    (∀ k, k ∉ keys formStepsFix →
      getKey (buildPayload ["d1"] formStepsFix (some rawOverride)).steps k =
        getKey (rawOverride.steps.getD []) k) :=
  c9_dispatch_override_merge ["d1"] formStepsFix rawOverride (by decide)

/-- Claim C1 counterexample: an ack with timestamp 10 (newer than the
snapshot's last_update 5) is applied, then the periodic refresh delivers
the stale snapshot: the refreshed state is exactly the snapshot, so the
newer last_update and the event-derived per-device ack entry for d1 are
both reverted — the claimed timestamp-preserving merge does not happen. -/
theorem c1_counterexample :
    (applyAck ackTs10 [cmdOne]).map Command.last_update = [some 10] ∧
    (applyAck ackTs10 [cmdOne]).map (fun c => keys c.per_device) = [["d1"]] ∧
    refreshCommands [cmdOne] (applyAck ackTs10 [cmdOne]) = [cmdOne] ∧
    cmdOne.last_update = some 5 ∧
    cmdOne.per_device = [] :=
  ⟨rfl, rfl, rfl, rfl, rfl⟩

/-- Claim C1 as amended: both periodic refreshes replace the in-memory
state wholesale with the fetched snapshot — the result does not depend on
the previous state at all, so every locally event-derived field, however
fresh, is discarded in favour of the snapshot's value. -/
theorem c1_refresh_is_wholesale_replacement (csnap p q : List Command)
    (dsnap dp dq : List Device) :
    refreshCommands csnap p = csnap ∧
    refreshCommands csnap p = refreshCommands csnap q ∧
    refreshDevices dsnap dp = dsnap ∧
    refreshDevices dsnap dp = refreshDevices dsnap dq :=
  ⟨rfl, rfl, rfl, rfl⟩

end OtaBv
